import Mathlib

/-!
Verification of the DNA sequencing program (victorbenevides_202100011889_sequenciamento.py).

The Python source is shallowly embedded: strings are Lean `String`s (scanned as
`List Char`), Python `int` is `ℤ`, and fallible code (indexing, `int()`
parsing, worker failure) returns `Option`.  The IEEE binary64 float arithmetic
of the probability formula is modelled exactly: every intermediate value of
`((m / n) * 100) + 0.5` is a dyadic rational carried as an exact fraction, and
each operation rounds its exact result to the binary64 grid with round to
nearest, ties to even — CPython's semantics for `int / int` true division,
float multiplication and float addition.  The `while` loop of
`encontrar_ocorrencias_gene` is translated with an explicit fuel argument;
`len(sequencia_dna) + 1` iterations always suffice because `inicio` strictly
increases on every iteration.
-/

/-- Model of the Python slice test `sequencia_dna[p : p + len(gene)] == gene`:
`gene` occurs in `s` at position `p`. -/
def occursAt (s g : List Char) (p : ℕ) : Bool :=
  decide ((s.drop p).take g.length = g)

/-- All positions of `s` at which `g` occurs (in increasing order). -/
def occPositions (s g : List Char) : List ℕ :=
  (List.range (s.length + 1)).filter (fun p => occursAt s g p)

/-- Model of Python `sequencia_dna.find(gene, inicio)`: the least position
`p ≥ inicio` at which `gene` occurs, `none` standing for the return value -1. -/
def str_find (s g : List Char) (inicio : ℕ) : Option ℕ :=
  (occPositions s g).find? (fun p => decide (inicio ≤ p))

/-- Number of (overlapping) occurrences of `g` in `s`. -/
def countOcc (s g : List Char) : ℕ :=
  (occPositions s g).length

/-- Number of occurrences of `g` in `s` at positions `≥ i` (the occurrences the
loop of `encontrar_ocorrencias_gene` still has in front of it). -/
def remOcc (s g : List Char) (i : ℕ) : ℕ :=
  ((occPositions s g).filter (fun p => decide (i ≤ p))).length

/-- The `while` loop of `encontrar_ocorrencias_gene` (source lines 30-45),
with state `contagem` (the length accumulator) and `inicio` (the next search
start), plus fuel.  The loop guard `inicio <= len(sequencia_dna) - len(gene)`
(Python integer subtraction) is rendered as `inicio + g.length ≤ s.length`,
which is equivalent over ℤ since both sides of the original are integers. -/
def encontrarAux (s g : List Char) (t : ℤ) : ℤ → ℕ → ℕ → Bool
  | _, _, 0 => false
  | contagem, inicio, fuel + 1 =>
    if inicio + g.length ≤ s.length then
      match str_find s g inicio with
      | none => false
      | some posicao =>
        if t ≤ contagem + (g.length : ℤ) then true
        else encontrarAux s g t (contagem + (g.length : ℤ)) (posicao + 1) fuel
    else false

/-- Embedding of `encontrar_ocorrencias_gene(sequencia_dna, gene,
tamanho_minimo_substring)` (source lines 21-45): `if not gene or not
sequencia_dna: return False`, then the scanning loop started with
`contagem = 0`, `inicio = 0`. -/
def encontrar_ocorrencias_gene (sequencia_dna gene : String)
    (tamanho_minimo_substring : ℤ) : Bool :=
  if gene = "" ∨ sequencia_dna = "" then false
  else
    encontrarAux sequencia_dna.toList gene.toList tamanho_minimo_substring
      0 0 (sequencia_dna.toList.length + 1)

/-- The counter `genes_correspondentes` of `calcular_probabilidade_doenca`
(source lines 54-58): the number of genes the detector reports present. -/
def genes_correspondentes (sequencia_dna : String) (genes : List String)
    (tamanho_minimo_substring : ℤ) : ℕ :=
  (genes.filter
    (fun gene => encontrar_ocorrencias_gene sequencia_dna gene tamanho_minimo_substring)).length

/-- Number of binary digits of `n` (`⌊log2 n⌋ + 1` for `n ≥ 1`, and 0 for 0),
written with fuel so that it reduces in the kernel. -/
def bitsAux : ℕ → ℕ → ℕ
  | 0, _ => 0
  | fuel + 1, n => if n = 0 then 0 else bitsAux fuel (n / 2) + 1

/-- Binary digit count of a natural number. -/
def bits (n : ℕ) : ℕ := bitsAux n n

/-- Round the nonnegative rational `a / b` (with `b ≥ 1`) to the nearest
integer, ties to even. -/
def roundHalfEven (a b : ℕ) : ℕ :=
  if 2 * (a % b) < b then a / b
  else if b < 2 * (a % b) then a / b + 1
  else if a / b % 2 = 0 then a / b else a / b + 1

/-- `⌊log2 (a / b)⌋` for `a, b ≥ 1`: the unique `e` with `2^e ≤ a/b < 2^(e+1)`.
From the digit counts the ratio lies in `(2^(d-1), 2^(d+1))`, so `e` is `d` or
`d - 1`, decided by the integer comparison `a/b ≥ 2^d`. -/
def floorLog2 (a b : ℕ) : ℤ :=
  if 0 ≤ (bits a : ℤ) - (bits b : ℤ) then
    (if b * 2 ^ ((bits a : ℤ) - (bits b : ℤ)).toNat ≤ a then (bits a : ℤ) - (bits b : ℤ)
      else (bits a : ℤ) - (bits b : ℤ) - 1)
  else
    (if b ≤ a * 2 ^ (-((bits a : ℤ) - (bits b : ℤ))).toNat then (bits a : ℤ) - (bits b : ℤ)
      else (bits a : ℤ) - (bits b : ℤ) - 1)

/-- Round the nonnegative rational `a / b` (with `b ≥ 1`) to the IEEE binary64
grid — round to nearest, ties to even — returning the exact rounded value as a
fraction `(num, den)` with `den ≥ 1`.  For `a/b ∈ [2^e, 2^(e+1))` the grid
step is `2^(e-52)`, clamped to the subnormal step `2^-1074` when `e < -1022`;
no overflow handling is needed because the embedded expression only rounds
values at most `100.5` (the calculator always has `m ≤ n`). -/
def fround (a b : ℕ) : ℕ × ℕ :=
  if a = 0 then (0, 1)
  else
    if 0 ≤ min (52 - floorLog2 a b) 1074 then
      (roundHalfEven (a * 2 ^ (min (52 - floorLog2 a b) 1074).toNat) b,
        2 ^ (min (52 - floorLog2 a b) 1074).toNat)
    else
      (roundHalfEven a (b * 2 ^ (-min (52 - floorLog2 a b) 1074).toNat) *
        2 ^ (-min (52 - floorLog2 a b) 1074).toNat, 1)

/-- Exact binary64 model of the Python float expression
`((genes_correspondentes / len(genes)) * 100) + 0.5` (source line 60): the
true division `m / n`, then `· * 100`, then `· + 0.5`, each correctly rounded
to binary64 (100 and 0.5 are exactly representable). -/
def floatExpr (m n : ℕ) : ℕ × ℕ :=
  (fround (2 * (fround ((fround m n).1 * 100) (fround m n).2).1 +
      (fround ((fround m n).1 * 100) (fround m n).2).2)
    (2 * (fround ((fround m n).1 * 100) (fround m n).2).2))

/-- `math.floor` of a nonnegative exact fraction. -/
def floorFrac (x : ℕ × ℕ) : ℕ := x.1 / x.2

/-- Embedding of `calcular_probabilidade_doenca` (source lines 48-61).  The
float expression `math.floor(((genes_correspondentes / len(genes)) * 100)+0.5)`
is computed in the exact binary64 model `floatExpr`. -/
def calcular_probabilidade_doenca (sequencia_dna : String) (genes : List String)
    (tamanho_minimo_substring : ℤ) : ℤ :=
  if genes = [] then 0
  else
    min
      ((floorFrac (floatExpr
          (genes_correspondentes sequencia_dna genes tamanho_minimo_substring)
          genes.length) : ℕ) : ℤ)
      100

/-- The record `Doenca` of the source (lines 14-18). -/
structure Doenca where
  codigo : String
  genes : List String
  probabilidade_doenca : ℤ
deriving DecidableEq

/-- Word splitting of `linha.strip().split()`: split on runs of whitespace,
dropping leading and trailing whitespace (Python `str.split()` with no
separator). -/
def splitWsAux : List Char → List Char → List (List Char)
  | [], acc => if acc = [] then [] else [acc.reverse]
  | c :: cs, acc =>
    if c.isWhitespace then
      (if acc = [] then [] else [acc.reverse]) ++ splitWsAux cs []
    else splitWsAux cs (c :: acc)

/-- Model of Python `linha.strip().split()`. -/
def pySplit (linha : String) : List String :=
  (splitWsAux linha.toList []).map (fun l => String.mk l)

/-- Model of Python `s.strip()`: remove leading and trailing whitespace. -/
def pyStrip (s : String) : String :=
  String.mk (((s.toList.dropWhile Char.isWhitespace).reverse.dropWhile Char.isWhitespace).reverse)

/-- Digit-string parsing used by `pyToInt`. -/
def parseDigitsAux : List Char → ℕ → Option ℕ
  | [], acc => some acc
  | c :: cs, acc =>
    if c.isDigit then parseDigitsAux cs (acc * 10 + (c.toNat - 48)) else none

/-- Model of Python `int(s)` on a stripped string: an optional sign followed by
at least one digit; any other shape raises `ValueError`, modelled as `none`. -/
def pyToInt (s : String) : Option ℤ :=
  match s.toList with
  | [] => none
  | '-' :: cs => if cs = [] then none else (parseDigitsAux cs 0).map (fun n => -(n : ℤ))
  | '+' :: cs => if cs = [] then none else (parseDigitsAux cs 0).map (fun n => (n : ℤ))
  | cs => (parseDigitsAux cs 0).map (fun n => (n : ℤ))

/-- Embedding of the per-line body of `processar_grupo_doencas` (source lines
69-77): `partes = linha_doenca.strip().split()`, `codigo = partes[0]` (an
`IndexError`, hence `none`, on a line with no tokens), `genes = partes[2:]`. -/
def processar_linha (sequencia_dna : String) (tamanho_minimo_substring : ℤ)
    (linha_doenca : String) : Option Doenca :=
  match pySplit linha_doenca with
  | [] => none
  | codigo :: resto =>
    some ⟨codigo, resto.drop 1,
      calcular_probabilidade_doenca sequencia_dna (resto.drop 1) tamanho_minimo_substring⟩

/-- Embedding of `processar_grupo_doencas` (source lines 64-79): process the
lines of one chunk in order; a failure on any line aborts the whole chunk. -/
def processar_grupo_doencas (sequencia_dna : String) (tamanho_minimo_substring : ℤ) :
    List String → Option (List Doenca)
  | [] => some []
  | linha :: resto => do
    let d ← processar_linha sequencia_dna tamanho_minimo_substring linha
    let ds ← processar_grupo_doencas sequencia_dna tamanho_minimo_substring resto
    pure (d :: ds)

/-- Embedding of `ler_arquivo` (source lines 82-90) over the list of lines of
the input file.  `readline()` at end of file returns `""`, modelled by
`getD _ ""`; the two `int(...)` conversions fail (`ValueError`) on non-integer
text, modelled by `Option`.  No shape validation is performed on the disease
lines themselves. -/
def ler_arquivo (linhas_arquivo : List String) : Option (ℤ × String × List String) := do
  let tamanho_minimo_substring ← pyToInt (pyStrip (linhas_arquivo.getD 0 ""))
  let sequencia_dna := pyStrip (linhas_arquivo.getD 1 "")
  let quantidade_doencas ← pyToInt (pyStrip (linhas_arquivo.getD 2 ""))
  let linhas_doencas :=
    (List.range quantidade_doencas.toNat).map
      (fun i => pyStrip (linhas_arquivo.getD (3 + i) ""))
  pure (tamanho_minimo_substring, sequencia_dna, linhas_doencas)

/-- Embedding of `ordenar_doencas` (source lines 93-102): Python's stable
`sorted` with key `-probabilidade_doenca`, i.e. a stable sort with the
comparison `b.probabilidade_doenca ≤ a.probabilidade_doenca`. -/
def ordenar_doencas (doencas : List Doenca) : List Doenca :=
  doencas.mergeSort (fun a b => decide (b.probabilidade_doenca ≤ a.probabilidade_doenca))

/-- Embedding of `escrever_arquivo` (source lines 105-108): the list of lines
written, one per disease, in the given order. -/
def escrever_arquivo (doencas : List Doenca) : List String :=
  doencas.map
    (fun doenca => doenca.codigo ++ "->" ++ toString doenca.probabilidade_doenca ++ "%\n")

/-- Embedding of `dividir_lista` (source lines 111-114): `k, m =
divmod(len(lista), n)` and the list of slices
`lista[i*k + min(i, m) : (i+1)*k + min(i+1, m)]` for `i in range(n)`. -/
def dividir_lista {α : Type} (lista : List α) (n : ℕ) : List (List α) :=
  (List.range n).map
    (fun i =>
      (lista.drop (i * (lista.length / n) + min i (lista.length % n))).take
        ((i + 1) * (lista.length / n) + min (i + 1) (lista.length % n) -
          (i * (lista.length / n) + min i (lista.length % n))))

/-- Model of `pool.map(processar_grupo_doencas, argumentos_processamento)`
(source lines 137-139): each chunk is processed independently; a worker
failure aborts the whole run. -/
def processarChunks (sequencia_dna : String) (tamanho_minimo_substring : ℤ) :
    List (List String) → Option (List (List Doenca))
  | [] => some []
  | grupo :: grupos => do
    let r ← processar_grupo_doencas sequencia_dna tamanho_minimo_substring grupo
    let rs ← processarChunks sequencia_dna tamanho_minimo_substring grupos
    pure (r :: rs)

/-- The computational core of `main` (source lines 131-145) for a given worker
count `numero_nucleos`: partition the disease lines, process every chunk,
concatenate the chunk results in chunk order and sort. -/
def main_pipeline (sequencia_dna : String) (tamanho_minimo_substring : ℤ)
    (linhas_doencas : List String) (numero_nucleos : ℕ) : Option (List Doenca) :=
  (processarChunks sequencia_dna tamanho_minimo_substring
      (dividir_lista linhas_doencas numero_nucleos)).map
    (fun grupos => ordenar_doencas grupos.flatten)

lemma occursAt_length_le {s g : List Char} {p : ℕ} (hg : g ≠ [])
    (h : occursAt s g p = true) : p + g.length ≤ s.length := by
  unfold occursAt at h
  rw [decide_eq_true_eq] at h
  have hlen : ((s.drop p).take g.length).length = g.length := by rw [h]
  rw [List.length_take, List.length_drop] at hlen
  have hgpos : 0 < g.length := List.length_pos.mpr hg
  omega

lemma mem_occPositions {s g : List Char} {p : ℕ} :
    p ∈ occPositions s g ↔ (p ≤ s.length ∧ occursAt s g p = true) := by
  unfold occPositions
  simp [List.mem_filter, List.mem_range, Nat.lt_succ_iff]

lemma occPositions_pairwise (s g : List Char) : (occPositions s g).Pairwise (· < ·) :=
  (List.pairwise_lt_range _).filter _

lemma find?_sorted_min {p : ℕ → Bool} :
    ∀ {l : List ℕ}, l.Pairwise (· < ·) → ∀ {q x : ℕ},
      l.find? p = some q → x ∈ l → p x = true → q ≤ x := by
  intro l
  induction l with
  | nil => intro _ q x h; simp at h
  | cons a l ih =>
    intro hp q x hfind hmem hx
    by_cases ha : p a
    · rw [List.find?_cons_of_pos _ ha] at hfind
      obtain rfl : a = q := by simpa using hfind
      rcases List.mem_cons.mp hmem with rfl | hxl
      · exact le_refl _
      · exact le_of_lt ((List.pairwise_cons.mp hp).1 x hxl)
    · rw [List.find?_cons_of_neg _ ha] at hfind
      rcases List.mem_cons.mp hmem with rfl | hxl
      · exact absurd hx ha
      · exact ih (List.Pairwise.of_cons hp) hfind hxl hx

lemma str_find_some_le {s g : List Char} {i q : ℕ} (h : str_find s g i = some q) : i ≤ q := by
  unfold str_find at h
  have := List.find?_some h
  simpa using this

lemma str_find_none_remOcc {s g : List Char} {i : ℕ} (h : str_find s g i = none) :
    remOcc s g i = 0 := by
  unfold str_find at h
  unfold remOcc
  rw [List.length_eq_zero, List.filter_eq_nil_iff]
  intro a ha
  exact List.find?_eq_none.mp h a ha

lemma filter_ge_eq_cons : ∀ {l : List ℕ}, l.Pairwise (· < ·) →
    ∀ {q i : ℕ}, q ∈ l → i ≤ q → (∀ x ∈ l, i ≤ x → q ≤ x) →
      l.filter (fun p => decide (i ≤ p)) = q :: l.filter (fun p => decide (q + 1 ≤ p)) := by
  intro l
  induction l with
  | nil => intro _ q i hq; simp at hq
  | cons a l ih =>
    intro hp q i hq hiq hmin
    by_cases hia : i ≤ a
    · have hqa : q = a := by
        rcases List.mem_cons.mp hq with rfl | hql
        · rfl
        · have h1 : a < q := (List.pairwise_cons.mp hp).1 q hql
          have h2 : q ≤ a := hmin a (List.mem_cons_self a l) hia
          omega
      subst hqa
      have hl : ∀ x ∈ l, q < x := (List.pairwise_cons.mp hp).1
      have e1 : (q :: l).filter (fun p => decide (i ≤ p)) = q :: l := by
        apply List.filter_eq_self.mpr
        intro x hx
        rcases List.mem_cons.mp hx with rfl | hxl
        · simpa using hia
        · have := hl x hxl
          simp only [decide_eq_true_eq]
          omega
      have e2 : (q :: l).filter (fun p => decide (q + 1 ≤ p)) = l := by
        rw [List.filter_cons]
        have d2 : decide (q + 1 ≤ q) = false := by simp
        rw [d2]
        simp only [Bool.false_eq_true, if_false]
        apply List.filter_eq_self.mpr
        intro x hx
        have := hl x hx
        simp only [decide_eq_true_eq]
        omega
      rw [e1, e2]
    · have hqa : q ≠ a := fun h => hia (h ▸ hiq)
      have hql : q ∈ l := (List.mem_cons.mp hq).resolve_left hqa
      rw [List.filter_cons, List.filter_cons]
      have d1 : decide (i ≤ a) = false := by simpa using hia
      have d2 : decide (q + 1 ≤ a) = false := by
        simp only [decide_eq_false_iff_not]
        omega
      rw [d1, d2]
      simp only [Bool.false_eq_true, if_false]
      exact ih (List.Pairwise.of_cons hp) hql hiq
        (fun x hx => hmin x (List.mem_cons_of_mem _ hx))

lemma remOcc_succ_of_find {s g : List Char} {i q : ℕ} (h : str_find s g i = some q) :
    remOcc s g i = remOcc s g (q + 1) + 1 := by
  have hfind := h
  unfold str_find at hfind
  have hq := List.mem_of_find?_eq_some hfind
  have hpq : i ≤ q := str_find_some_le h
  have hmin : ∀ x ∈ occPositions s g, i ≤ x → q ≤ x := by
    intro x hx hix
    exact find?_sorted_min (occPositions_pairwise s g) hfind hx (by simpa)
  unfold remOcc
  rw [filter_ge_eq_cons (occPositions_pairwise s g) hq hpq hmin]
  simp

lemma remOcc_eq_zero_of_guard {s g : List Char} {i : ℕ} (hg : g ≠ [])
    (h : ¬ (i + g.length ≤ s.length)) : remOcc s g i = 0 := by
  unfold remOcc
  rw [List.length_eq_zero, List.filter_eq_nil_iff]
  intro p hp
  have h1 := (mem_occPositions.mp hp).2
  have h2 := occursAt_length_le hg h1
  simp only [decide_eq_true_eq]
  omega

lemma remOcc_zero (s g : List Char) : remOcc s g 0 = countOcc s g := by
  unfold remOcc countOcc
  congr 1
  apply List.filter_eq_self.mpr
  intro a _
  simp

/-- Invariant of the scanning loop: with enough fuel, the loop returns `true`
exactly when at least one occurrence lies ahead and the accumulator would reach
the threshold after consuming all remaining occurrences (since every occurrence
adds the same amount, the early exit fires iff the final total reaches it). -/
lemma encontrarAux_eq_true_iff {s g : List Char} (hg : g ≠ []) (t : ℤ) :
    ∀ (fuel inicio : ℕ) (contagem : ℤ), s.length + 1 ≤ fuel + inicio →
      (encontrarAux s g t contagem inicio fuel = true ↔
        1 ≤ remOcc s g inicio ∧
          t ≤ contagem + (remOcc s g inicio : ℤ) * (g.length : ℤ)) := by
  intro fuel
  induction fuel with
  | zero =>
    intro inicio contagem hfuel
    have hgpos : 0 < g.length := List.length_pos.mpr hg
    have hrem : remOcc s g inicio = 0 := remOcc_eq_zero_of_guard hg (by omega)
    simp [encontrarAux, hrem]
  | succ fuel ih =>
    intro inicio contagem hfuel
    by_cases hguard : inicio + g.length ≤ s.length
    · cases hfind : str_find s g inicio with
      | none =>
        have hrem := str_find_none_remOcc hfind
        simp [encontrarAux, hguard, hfind, hrem]
      | some posicao =>
        have hsplit := remOcc_succ_of_find hfind
        have hip : inicio ≤ posicao := str_find_some_le hfind
        by_cases hcmp : t ≤ contagem + (g.length : ℤ)
        · have hres : encontrarAux s g t contagem inicio (fuel + 1) = true := by
            simp [encontrarAux, hguard, hfind, hcmp]
          rw [hres]
          have h1 : 1 ≤ remOcc s g inicio := by omega
          have h2 : (g.length : ℤ) ≤ (remOcc s g inicio : ℤ) * (g.length : ℤ) := by
            have hc : (1 : ℤ) ≤ (remOcc s g inicio : ℤ) := by exact_mod_cast h1
            nlinarith [Int.ofNat_nonneg g.length]
          simp only [true_iff]
          exact ⟨h1, by omega⟩
        · have hres : encontrarAux s g t contagem inicio (fuel + 1) =
              encontrarAux s g t (contagem + (g.length : ℤ)) (posicao + 1) fuel := by
            simp [encontrarAux, hguard, hfind, hcmp]
          rw [hres, ih (posicao + 1) (contagem + (g.length : ℤ)) (by omega), hsplit]
          have hdist : ((remOcc s g (posicao + 1) + 1 : ℕ) : ℤ) * (g.length : ℤ)
              = (remOcc s g (posicao + 1) : ℤ) * (g.length : ℤ) + (g.length : ℤ) := by
            push_cast
            ring
          constructor
          · rintro ⟨h1, h2⟩
            refine ⟨by omega, ?_⟩
            rw [hdist]
            omega
          · rintro ⟨-, h2⟩
            rw [hdist] at h2
            rcases Nat.eq_zero_or_pos (remOcc s g (posicao + 1)) with h0 | h0
            · exfalso
              rw [h0] at h2
              push_cast at h2
              exact hcmp (by omega)
            · exact ⟨h0, by omega⟩
    · have hgpos : 0 < g.length := List.length_pos.mpr hg
      have hrem : remOcc s g inicio = 0 := remOcc_eq_zero_of_guard hg hguard
      simp [encontrarAux, hguard, hrem]

/-- Characterization of the detector on nonempty inputs: true iff there is at
least one occurrence and the total accumulated length over all (overlapping)
occurrences reaches the threshold. -/
lemma encontrar_true_iff (s g : String) (t : ℤ) (hg : g ≠ "") (hs : s ≠ "") :
    encontrar_ocorrencias_gene s g t = true ↔
      1 ≤ countOcc s.toList g.toList ∧
        t ≤ (countOcc s.toList g.toList : ℤ) * (g.length : ℤ) := by
  unfold encontrar_ocorrencias_gene
  have hg' : g.toList ≠ [] := fun h => hg (String.ext h)
  rw [if_neg (by tauto)]
  rw [encontrarAux_eq_true_iff hg' t _ 0 0 (by omega)]
  rw [remOcc_zero, zero_add]
  exact Iff.rfl

lemma countOcc_eq_zero_of_long {s g : List Char} (hg : g ≠ []) (h : s.length < g.length) :
    countOcc s g = 0 := by
  unfold countOcc occPositions
  rw [List.length_eq_zero, List.filter_eq_nil_iff]
  intro p _ hocc
  have := occursAt_length_le hg hocc
  omega

/-- Claim C1: `is_present` (`encontrar_ocorrencias_gene`) returns false when
the gene or the sequence is empty, and otherwise returns true iff the running
total of `len(gene)`, summed over overlapping occurrences (the next search
after an occurrence at `p` starts at `p + 1`), reaches or exceeds the
threshold; in particular `is_present("AAAA", "AA", 4)` is true.  The running
total after `k` found occurrences is `k·len(gene)`, so "the running total
reaches or exceeds the threshold" is `∃ k, 1 ≤ k ≤ countOcc ∧ t ≤ k·len(gene)`. -/
theorem C1_detector_counts_overlapping_length :
    (∀ (sequencia_dna gene : String) (t : ℤ),
      encontrar_ocorrencias_gene sequencia_dna gene t = true ↔
        gene ≠ "" ∧ sequencia_dna ≠ "" ∧
          ∃ k : ℕ, 1 ≤ k ∧ k ≤ countOcc sequencia_dna.toList gene.toList ∧
            t ≤ (k : ℤ) * (gene.length : ℤ))
    ∧ encontrar_ocorrencias_gene "AAAA" "AA" 4 = true := by
  constructor
  · intro s g t
    by_cases hgs : g = "" ∨ s = ""
    · have hfalse : encontrar_ocorrencias_gene s g t = false := by
        unfold encontrar_ocorrencias_gene
        rw [if_pos hgs]
      rw [hfalse]
      simp only [Bool.false_eq_true, false_iff]
      rintro ⟨hg, hs, -⟩
      rcases hgs with h | h
      · exact hg h
      · exact hs h
    · push_neg at hgs
      rw [encontrar_true_iff s g t hgs.1 hgs.2]
      constructor
      · rintro ⟨h1, h2⟩
        exact ⟨hgs.1, hgs.2, countOcc s.toList g.toList, h1, le_refl _, h2⟩
      · rintro ⟨-, -, k, hk1, hk2, hk3⟩
        refine ⟨by omega, ?_⟩
        have hmul : (k : ℤ) * (g.length : ℤ) ≤
            (countOcc s.toList g.toList : ℤ) * (g.length : ℤ) :=
          mul_le_mul_of_nonneg_right (by exact_mod_cast hk2) (Int.ofNat_nonneg _)
        exact le_trans hk3 hmul
  · decide

/-- Claim C10 (implicit): a threshold of 0 does not make the detector vacuously
true — for nonempty sequence and gene, `is_present(sequence, gene, 0)` is true
iff the gene occurs at least once (the accumulator is only checked after an
occurrence is found), so an absent gene, or a gene longer than the sequence,
yields false even though the running total 0 already meets threshold 0. -/
theorem C10_threshold_zero_requires_occurrence :
    ∀ (sequencia_dna gene : String), sequencia_dna ≠ "" → gene ≠ "" →
      ((encontrar_ocorrencias_gene sequencia_dna gene 0 = true ↔
          1 ≤ countOcc sequencia_dna.toList gene.toList) ∧
        (countOcc sequencia_dna.toList gene.toList = 0 →
          encontrar_ocorrencias_gene sequencia_dna gene 0 = false) ∧
        (sequencia_dna.length < gene.length →
          encontrar_ocorrencias_gene sequencia_dna gene 0 = false)) := by
  intro s g hs hg
  have hg' : g.toList ≠ [] := fun h => hg (String.ext h)
  have hmain : encontrar_ocorrencias_gene s g 0 = true ↔
      1 ≤ countOcc s.toList g.toList := by
    rw [encontrar_true_iff s g 0 hg hs]
    constructor
    · exact fun h => h.1
    · intro h
      exact ⟨h, mul_nonneg (Int.ofNat_nonneg _) (Int.ofNat_nonneg _)⟩
  have habsent : countOcc s.toList g.toList = 0 →
      encontrar_ocorrencias_gene s g 0 = false := by
    intro h0
    rw [Bool.eq_false_iff]
    intro htrue
    have := hmain.mp htrue
    omega
  refine ⟨hmain, habsent, ?_⟩
  intro hlong
  exact habsent (countOcc_eq_zero_of_long hg' hlong)

/-- Witness for C10 at the concrete input: sequence `"AC"`, absent gene `"G"`,
threshold 0. -/
theorem C10_witness :
    ("AC" : String) ≠ "" ∧ ("G" : String) ≠ "" ∧
      ((encontrar_ocorrencias_gene "AC" "G" 0 = true ↔
          1 ≤ countOcc "AC".toList "G".toList) ∧
        (countOcc "AC".toList "G".toList = 0 →
          encontrar_ocorrencias_gene "AC" "G" 0 = false) ∧
        (("AC" : String).length < ("G" : String).length →
          encontrar_ocorrencias_gene "AC" "G" 0 = false)) :=
  ⟨by decide, by decide,
    C10_threshold_zero_requires_occurrence "AC" "G" (by decide) (by decide)⟩

/-- Claim C2 asserts the exact round-half-up law
`min(floor(matched/len(genes)*100 + 0.5), 100)`.  The code computes that
expression in IEEE binary64 floats and deviates from the exact law: at
`matched = 23` of `len(genes) = 40` the double `(23/40)*100` is
`57.49999999999999289…`, adding `0.5` stays below 58, and `math.floor` gives
57, while the claimed exact law gives 58.  This theorem evaluates the embedded
code at that failing input (and shows that the claim's agreeing examples
`1` of 3 → 33 and `2` of 3 → 67 do hold of the code). -/
theorem C2_float_rounding_deviates_from_exact_law :
    genes_correspondentes "A" (List.replicate 23 "A" ++ List.replicate 17 "B") 1 = 23 ∧
    (List.replicate 23 "A" ++ List.replicate 17 "B" : List String).length = 40 ∧
    calcular_probabilidade_doenca "A" (List.replicate 23 "A" ++ List.replicate 17 "B") 1 = 57 ∧
    min ((200 * 23 + 40 : ℤ) / (2 * 40)) 100 = 58 ∧
    calcular_probabilidade_doenca "A" ["A", "B", "C"] 1 = 33 ∧
    calcular_probabilidade_doenca "A" ["A", "A", "C"] 1 = 67 :=
  ⟨by decide, by decide, by decide, by decide, by decide, by decide⟩

/-- Claim C8: the order of a disease's gene list is irrelevant: for every
permutation of the gene list the computed probability is unchanged. -/
theorem C8_gene_order_irrelevant :
    ∀ (sequencia_dna : String) (genes genes2 : List String) (t : ℤ),
      genes.Perm genes2 →
      calcular_probabilidade_doenca sequencia_dna genes t =
        calcular_probabilidade_doenca sequencia_dna genes2 t := by
  intro s l1 l2 t hperm
  have hlen : l1.length = l2.length := hperm.length_eq
  have hcnt : genes_correspondentes s l1 t = genes_correspondentes s l2 t := by
    unfold genes_correspondentes
    exact (hperm.filter _).length_eq
  rcases eq_or_ne l2 [] with h2 | h2
  · have h1 : l1 = [] := by
      subst h2
      exact hperm.eq_nil
    rw [h1, h2]
  · have h1 : l1 ≠ [] := fun e => h2 ((e ▸ hperm).symm.eq_nil)
    unfold calcular_probabilidade_doenca
    rw [if_neg h1, if_neg h2, hlen, hcnt]

/-- Witness for C8 at a concrete permutation. -/
theorem C8_witness :
    (["AB", "C"] : List String).Perm ["C", "AB"] ∧
      calcular_probabilidade_doenca "AB" ["AB", "C"] 2 =
        calcular_probabilidade_doenca "AB" ["C", "AB"] 2 :=
  ⟨by decide, C8_gene_order_irrelevant "AB" ["AB", "C"] ["C", "AB"] 2 (by decide)⟩

lemma calcular_nonneg_le (s : String) (genes : List String) (t : ℤ) :
    0 ≤ calcular_probabilidade_doenca s genes t ∧
      calcular_probabilidade_doenca s genes t ≤ 100 := by
  unfold calcular_probabilidade_doenca
  by_cases h : genes = []
  · simp [h]
  · rw [if_neg h]
    exact ⟨le_min (Int.ofNat_nonneg _) (by norm_num), min_le_right _ _⟩

lemma processar_linha_prob {s : String} {t : ℤ} {linha : String} {d : Doenca}
    (h : processar_linha s t linha = some d) :
    ∃ genes, d.probabilidade_doenca = calcular_probabilidade_doenca s genes t := by
  unfold processar_linha at h
  cases hsplit : pySplit linha with
  | nil =>
    rw [hsplit] at h
    simp at h
  | cons c r =>
    rw [hsplit] at h
    have := Option.some.inj h
    exact ⟨r.drop 1, by rw [← this]⟩

lemma processar_mem_prob {s : String} {t : ℤ} :
    ∀ {linhas : List String} {ds : List Doenca},
      processar_grupo_doencas s t linhas = some ds →
      ∀ d ∈ ds, 0 ≤ d.probabilidade_doenca ∧ d.probabilidade_doenca ≤ 100 := by
  intro linhas
  induction linhas with
  | nil =>
    intro ds h d hd
    rw [show processar_grupo_doencas s t [] = some [] from rfl] at h
    obtain rfl := Option.some.inj h
    simp at hd
  | cons linha resto ih =>
    intro ds h d hd
    have hbind : processar_grupo_doencas s t (linha :: resto) =
        (processar_linha s t linha).bind (fun d0 =>
          (processar_grupo_doencas s t resto).bind (fun ds0 => some (d0 :: ds0))) := rfl
    rw [hbind] at h
    cases h1 : processar_linha s t linha with
    | none =>
      rw [h1] at h
      simp at h
    | some d0 =>
      rw [h1] at h
      cases h2 : processar_grupo_doencas s t resto with
      | none =>
        rw [h2] at h
        simp at h
      | some ds0 =>
        rw [h2] at h
        obtain rfl := Option.some.inj h
        rcases List.mem_cons.mp hd with rfl | hdm
        · obtain ⟨genes, hg⟩ := processar_linha_prob h1
          rw [hg]
          exact calcular_nonneg_le s genes t
        · exact ih h2 d hdm

/-- Claim C6: every disease produced by the chunk processor has probability in
`[0, 100]`, and this is preserved by ranking. -/
theorem C6_probability_in_range :
    ∀ (sequencia_dna : String) (t : ℤ) (linhas : List String) (ds : List Doenca),
      processar_grupo_doencas sequencia_dna t linhas = some ds →
      ((∀ d ∈ ds, 0 ≤ d.probabilidade_doenca ∧ d.probabilidade_doenca ≤ 100) ∧
        (∀ d ∈ ordenar_doencas ds,
          0 ≤ d.probabilidade_doenca ∧ d.probabilidade_doenca ≤ 100)) := by
  intro s t linhas ds h
  have h1 := processar_mem_prob h
  refine ⟨h1, ?_⟩
  intro d hd
  apply h1
  unfold ordenar_doencas at hd
  exact List.mem_mergeSort.mp hd

/-- Witness for C6 at a concrete run. -/
theorem C6_witness :
    processar_grupo_doencas "A" 1 ["D1 x"] = some [⟨"D1", [], 0⟩] ∧
      ((∀ d ∈ [(⟨"D1", [], 0⟩ : Doenca)],
          0 ≤ d.probabilidade_doenca ∧ d.probabilidade_doenca ≤ 100) ∧
        (∀ d ∈ ordenar_doencas [(⟨"D1", [], 0⟩ : Doenca)],
          0 ≤ d.probabilidade_doenca ∧ d.probabilidade_doenca ≤ 100)) :=
  ⟨by decide, C6_probability_in_range "A" 1 ["D1 x"] [⟨"D1", [], 0⟩] (by decide)⟩

lemma dividir_boundary_mono (k m : ℕ) : ∀ {i j : ℕ}, i ≤ j →
    i * k + min i m ≤ j * k + min j m :=
  fun h => add_le_add (Nat.mul_le_mul_right k h) (min_le_min h (le_refl m))

lemma dividir_boundary_last (L n : ℕ) (hn : 1 ≤ n) :
    n * (L / n) + min n (L % n) = L := by
  have hmod : L % n < n := Nat.mod_lt _ (by omega)
  have hdm := Nat.div_add_mod L n
  rw [min_eq_right (le_of_lt hmod)]
  omega

lemma join_slices {α : Type} (lista : List α) (a : ℕ → ℕ)
    (hmono : ∀ i j, i ≤ j → a i ≤ a j) :
    ∀ (c j : ℕ),
      ((List.range' j c).map (fun i => (lista.drop (a i)).take (a (i + 1) - a i))).flatten
        = (lista.drop (a j)).take (a (j + c) - a j) := by
  intro c
  induction c with
  | zero =>
    intro j
    simp
  | succ c ih =>
    intro j
    have hrange : List.range' j (c + 1) = j :: List.range' (j + 1) c := rfl
    rw [hrange]
    simp only [List.map_cons, List.flatten_cons]
    rw [ih (j + 1)]
    have h1 : a j ≤ a (j + 1) := hmono _ _ (by omega)
    have h2 : a (j + 1) ≤ a (j + 1 + c) := hmono _ _ (by omega)
    have hdrop : lista.drop (a (j + 1)) = (lista.drop (a j)).drop (a (j + 1) - a j) := by
      rw [List.drop_drop]
      congr 1
      omega
    have hidx : j + (c + 1) = j + 1 + c := by omega
    rw [hidx, hdrop, ← List.take_add]
    congr 1
    omega

lemma dividir_lista_join {α : Type} (lista : List α) {n : ℕ} (hn : 1 ≤ n) :
    (dividir_lista lista n).flatten = lista := by
  have hjoin := join_slices lista
      (fun i => i * (lista.length / n) + min i (lista.length % n))
      (fun i j h => dividir_boundary_mono _ _ h) n 0
  simp only [zero_add] at hjoin
  unfold dividir_lista
  rw [List.range_eq_range', hjoin]
  have han := dividir_boundary_last lista.length n hn
  simp only [Nat.zero_mul, Nat.zero_min, Nat.add_zero, Nat.zero_add, han]
  simp [List.take_length]

lemma dividir_lista_length {α : Type} (lista : List α) (n : ℕ) :
    (dividir_lista lista n).length = n := by
  unfold dividir_lista
  simp

lemma chunk_length_arith {L i k m : ℕ} (hB : (i + 1) * k + min (i + 1) m ≤ L) :
    min ((i + 1) * k + min (i + 1) m - (i * k + min i m)) (L - (i * k + min i m)) =
      if i < m then k + 1 else k := by
  have hmul : (i + 1) * k = i * k + k := Nat.succ_mul _ _
  rw [hmul] at hB ⊢
  rcases Nat.lt_or_ge i m with him | him
  · rw [if_pos him]
    omega
  · rw [if_neg (by omega)]
    omega

lemma dividir_lista_chunk_length {α : Type} (lista : List α) {n i : ℕ} (hn : 1 ≤ n)
    (hi : i < n) :
    ((dividir_lista lista n).getD i []).length =
      if i < lista.length % n then lista.length / n + 1 else lista.length / n := by
  unfold dividir_lista
  have hget : ((List.range n).map (fun i =>
      (lista.drop (i * (lista.length / n) + min i (lista.length % n))).take
        ((i + 1) * (lista.length / n) + min (i + 1) (lista.length % n) -
          (i * (lista.length / n) + min i (lista.length % n)))))[i]? =
      some ((lista.drop (i * (lista.length / n) + min i (lista.length % n))).take
        ((i + 1) * (lista.length / n) + min (i + 1) (lista.length % n) -
          (i * (lista.length / n) + min i (lista.length % n)))) := by
    rw [List.getElem?_map, List.getElem?_range hi]
    rfl
  rw [List.getD_eq_getElem?_getD, hget]
  simp only [Option.getD_some, List.length_take, List.length_drop]
  have han := dividir_boundary_last lista.length n hn
  have hnext : (i + 1) * (lista.length / n) + min (i + 1) (lista.length % n) ≤
      lista.length := by
    have := dividir_boundary_mono (lista.length / n) (lista.length % n) (show i + 1 ≤ n by omega)
    omega
  exact chunk_length_arith hnext

/-- Claim C4: `dividir_lista` returns exactly `n` contiguous chunks whose
concatenation in chunk order is the input list; with `k, m = divmod(L, n)` the
first `m` chunks have `k + 1` elements and the rest have `k`. -/
theorem C4_dividir_lista_partition :
    ∀ {α : Type} (lista : List α) (n : ℕ), 1 ≤ n →
      ((dividir_lista lista n).length = n ∧
        (dividir_lista lista n).flatten = lista ∧
        ∀ i, i < n →
          ((dividir_lista lista n).getD i []).length =
            if i < lista.length % n then lista.length / n + 1 else lista.length / n) :=
  fun lista n hn =>
    ⟨dividir_lista_length lista n, dividir_lista_join lista hn,
      fun _ hi => dividir_lista_chunk_length lista hn hi⟩

/-- Witness for C4 with a list of 5 elements split into 3 chunks. -/
theorem C4_witness :
    1 ≤ 3 ∧
      ((dividir_lista [0, 1, 2, 3, 4] 3).length = 3 ∧
        (dividir_lista [0, 1, 2, 3, 4] 3).flatten = [0, 1, 2, 3, 4] ∧
        ∀ i, i < 3 →
          ((dividir_lista [0, 1, 2, 3, 4] 3).getD i []).length =
            if i < ([0, 1, 2, 3, 4] : List ℕ).length % 3
            then ([0, 1, 2, 3, 4] : List ℕ).length / 3 + 1
            else ([0, 1, 2, 3, 4] : List ℕ).length / 3) :=
  ⟨by decide, C4_dividir_lista_partition [0, 1, 2, 3, 4] 3 (by decide)⟩

lemma processar_append (s : String) (t : ℤ) (l1 l2 : List String) :
    processar_grupo_doencas s t (l1 ++ l2) =
      (processar_grupo_doencas s t l1).bind (fun a =>
        (processar_grupo_doencas s t l2).map (fun b => a ++ b)) := by
  induction l1 with
  | nil =>
    rw [List.nil_append,
      show processar_grupo_doencas s t [] = some [] from rfl]
    cases processar_grupo_doencas s t l2 <;> simp
  | cons linha resto ih =>
    rw [List.cons_append]
    have hc1 : processar_grupo_doencas s t (linha :: (resto ++ l2)) =
        (processar_linha s t linha).bind (fun d =>
          (processar_grupo_doencas s t (resto ++ l2)).bind (fun ds => some (d :: ds))) := rfl
    have hc2 : processar_grupo_doencas s t (linha :: resto) =
        (processar_linha s t linha).bind (fun d =>
          (processar_grupo_doencas s t resto).bind (fun ds => some (d :: ds))) := rfl
    rw [hc1, hc2, ih]
    cases processar_linha s t linha <;>
      cases processar_grupo_doencas s t resto <;>
      cases processar_grupo_doencas s t l2 <;> simp

lemma processarChunks_flatten (s : String) (t : ℤ) :
    ∀ (grupos : List (List String)),
      (processarChunks s t grupos).map List.flatten =
        processar_grupo_doencas s t grupos.flatten := by
  intro grupos
  induction grupos with
  | nil => simp [processarChunks, processar_grupo_doencas]
  | cons g gs ih =>
    rw [List.flatten_cons, processar_append, ← ih]
    have hcons : processarChunks s t (g :: gs) =
        (processar_grupo_doencas s t g).bind (fun r =>
          (processarChunks s t gs).bind (fun rs => some (r :: rs))) := rfl
    rw [hcons]
    cases processar_grupo_doencas s t g <;> cases processarChunks s t gs <;> simp

lemma main_pipeline_eq (s : String) (t : ℤ) (linhas : List String) {m : ℕ} (hm : 1 ≤ m) :
    main_pipeline s t linhas m = (processar_grupo_doencas s t linhas).map ordenar_doencas := by
  have h1 := processarChunks_flatten s t (dividir_lista linhas m)
  rw [dividir_lista_join linhas hm] at h1
  unfold main_pipeline
  cases hx : processarChunks s t (dividir_lista linhas m) with
  | none =>
    rw [hx] at h1
    rw [← h1]
    rfl
  | some grupos =>
    rw [hx] at h1
    rw [← h1]
    rfl

/-- Claim C3: the final ranked output is deterministic regardless of the worker
count: for every `n ≥ 1`, partitioning into `n` chunks, processing the chunks
independently, concatenating in chunk order and stably sorting gives exactly
the single-chunk (`n = 1`) result. -/
theorem C3_pipeline_deterministic :
    ∀ (sequencia_dna : String) (t : ℤ) (linhas : List String) (n : ℕ), 1 ≤ n →
      main_pipeline sequencia_dna t linhas n = main_pipeline sequencia_dna t linhas 1 := by
  intro s t linhas n hn
  rw [main_pipeline_eq s t linhas hn, main_pipeline_eq s t linhas (le_refl 1)]

/-- Witness for C3: two disease lines split over two workers. -/
theorem C3_witness :
    1 ≤ 2 ∧
      main_pipeline "A" 1 ["D1 x", "D2 x"] 2 = main_pipeline "A" 1 ["D1 x", "D2 x"] 1 :=
  ⟨by decide, C3_pipeline_deterministic "A" 1 ["D1 x", "D2 x"] 2 (by decide)⟩

/-- Claim C5: `ordenar_doencas` is a stable sort by descending probability: in
the output every element weakly dominates all later ones in probability, the
subsequence at any fixed probability equals that of the input (stability), and
the output is a permutation of the input. -/
theorem C5_stable_sort_descending :
    ∀ (doencas : List Doenca),
      (ordenar_doencas doencas).Pairwise
        (fun a b => b.probabilidade_doenca ≤ a.probabilidade_doenca) ∧
      (∀ P : ℤ, (ordenar_doencas doencas).filter
          (fun d => decide (d.probabilidade_doenca = P)) =
        doencas.filter (fun d => decide (d.probabilidade_doenca = P))) ∧
      (ordenar_doencas doencas).Perm doencas := by
  intro l
  have htrans : ∀ (a b c : Doenca),
      decide (b.probabilidade_doenca ≤ a.probabilidade_doenca) = true →
      decide (c.probabilidade_doenca ≤ b.probabilidade_doenca) = true →
      decide (c.probabilidade_doenca ≤ a.probabilidade_doenca) = true := by
    intro a b c hab hbc
    simp only [decide_eq_true_eq] at hab hbc ⊢
    omega
  have htotal : ∀ (a b : Doenca),
      (decide (b.probabilidade_doenca ≤ a.probabilidade_doenca) ||
        decide (a.probabilidade_doenca ≤ b.probabilidade_doenca)) = true := by
    intro a b
    simp only [Bool.or_eq_true, decide_eq_true_eq]
    omega
  unfold ordenar_doencas
  refine ⟨?_, ?_, List.mergeSort_perm l _⟩
  · exact (List.sorted_mergeSort htrans htotal l).imp (fun hab => by simpa using hab)
  · intro P
    have hperm := List.mergeSort_perm l
      (fun a b : Doenca => decide (b.probabilidade_doenca ≤ a.probabilidade_doenca))
    have hsub : List.Sublist (l.filter (fun d => decide (d.probabilidade_doenca = P)))
        (List.mergeSort l
          (fun a b : Doenca => decide (b.probabilidade_doenca ≤ a.probabilidade_doenca))) := by
      apply List.sublist_mergeSort htrans htotal
      · apply List.pairwise_of_forall_mem_list
        intro a ha b hb
        have ha2 := (List.mem_filter.mp ha).2
        have hb2 := (List.mem_filter.mp hb).2
        simp only [decide_eq_true_eq] at ha2 hb2 ⊢
        omega
      · exact List.filter_sublist l
    have hfiltperm := hperm.filter (fun d => decide (d.probabilidade_doenca = P))
    have hself : (l.filter (fun d => decide (d.probabilidade_doenca = P))).filter
        (fun d => decide (d.probabilidade_doenca = P)) =
        l.filter (fun d => decide (d.probabilidade_doenca = P)) := by
      apply List.filter_eq_self.mpr
      intro a ha
      exact (List.mem_filter.mp ha).2
    have hsub2 : List.Sublist (l.filter (fun d => decide (d.probabilidade_doenca = P)))
        ((List.mergeSort l
          (fun a b : Doenca => decide (b.probabilidade_doenca ≤ a.probabilidade_doenca))).filter
          (fun d => decide (d.probabilidade_doenca = P))) := by
      rw [← hself]
      exact hsub.filter _
    exact (hsub2.eq_of_length hfiltperm.length_eq.symm).symm

/-- Counterexample to C7 as stated: the disease line "D1 X" has only 2 tokens,
yet the loader accepts the file unchanged and the chunk processor consumes the
line without any failure (it yields an empty gene list and probability 0), so
malformed disease lines do not fail fast at the loading boundary and the core
does receive them. -/
theorem C7_counterexample :
    (pySplit "D1 X").length < 3 ∧
      ler_arquivo ["4", "ACGT", "1", "D1 X"] = some (4, "ACGT", ["D1 X"]) ∧
      processar_grupo_doencas "ACGT" 4 ["D1 X"] = some [⟨"D1", [], 0⟩] :=
  ⟨by decide, by decide, by decide⟩

/-- Claim C7 as amended: the loading boundary validates only the two integer
header fields and accepts any disease lines; a disease line with fewer than 3
tokens reaches the core unrejected, where the chunk processor fails
(`IndexError` at `partes[0]`) only when the line has zero tokens, and otherwise
degrades to an empty gene list handled by the empty-gene-list rule
(probability 0). -/
theorem C7_short_lines_reach_core :
    ∀ (sequencia_dna : String) (t : ℤ) (linha : String),
      (pySplit linha).length < 3 →
      ((processar_linha sequencia_dna t linha = none ↔ pySplit linha = []) ∧
        (∀ d, processar_linha sequencia_dna t linha = some d →
          d.genes = [] ∧ d.probabilidade_doenca = 0) ∧
        ler_arquivo ["1", "A", "1", linha] = some (1, "A", [pyStrip linha])) := by
  intro s t linha hlen
  refine ⟨⟨?_, ?_⟩, ?_, ?_⟩
  · intro h
    cases hsplit : pySplit linha with
    | nil => rfl
    | cons c r =>
      unfold processar_linha at h
      rw [hsplit] at h
      simp at h
  · intro h
    unfold processar_linha
    rw [h]
  · intro d h
    unfold processar_linha at h
    cases hsplit : pySplit linha with
    | nil =>
      rw [hsplit] at h
      simp at h
    | cons c r =>
      rw [hsplit] at h
      have hr : r.drop 1 = [] := by
        rw [hsplit] at hlen
        rw [← List.length_eq_zero, List.length_drop]
        simp only [List.length_cons] at hlen
        omega
      obtain rfl := Option.some.inj h
      refine ⟨hr, ?_⟩
      show calcular_probabilidade_doenca s (r.drop 1) t = 0
      rw [hr]
      rfl
  · rfl

/-- Witness for the amended C7 at the 2-token line "D1 X". -/
theorem C7_witness :
    (pySplit "D1 X").length < 3 ∧
      ((processar_linha "ACGT" 4 "D1 X" = none ↔ pySplit "D1 X" = []) ∧
        (∀ d, processar_linha "ACGT" 4 "D1 X" = some d →
          d.genes = [] ∧ d.probabilidade_doenca = 0) ∧
        ler_arquivo ["1", "A", "1", "D1 X"] = some (1, "A", [pyStrip "D1 X"])) :=
  ⟨by decide, C7_short_lines_reach_core "ACGT" 4 "D1 X" (by decide)⟩

/-- Claim C9: the writer emits exactly one line per disease, in the given
(ranked) order, of the form `code ++ "->" ++ probability ++ "%\n"` — the
literal arrow "->", then the integer percentage, then "%"; end-to-end, with
threshold 4, sequence "ACGTACGT" and disease line "D1 _ ACGT CGTA", both genes
are present, matched = 2 of 2 gives 100%, and the output line is "D1->100%". -/
theorem C9_writer_format_and_end_to_end :
    (∀ (doencas : List Doenca),
      (escrever_arquivo doencas).length = doencas.length ∧
      ∀ i, i < doencas.length →
        (escrever_arquivo doencas).getD i "" =
          (doencas.getD i ⟨"", [], 0⟩).codigo ++ "->" ++
            toString (doencas.getD i ⟨"", [], 0⟩).probabilidade_doenca ++ "%\n")
    ∧ encontrar_ocorrencias_gene "ACGTACGT" "ACGT" 4 = true
    ∧ encontrar_ocorrencias_gene "ACGTACGT" "CGTA" 4 = true
    ∧ ler_arquivo ["4", "ACGTACGT", "1", "D1 _ ACGT CGTA"] =
        some (4, "ACGTACGT", ["D1 _ ACGT CGTA"])
    ∧ (main_pipeline "ACGTACGT" 4 ["D1 _ ACGT CGTA"] 1).map escrever_arquivo =
        some ["D1->100%\n"] := by
  refine ⟨?_, by decide, by decide, by decide, ?_⟩
  · intro ds
    constructor
    · simp [escrever_arquivo]
    · intro i hi
      unfold escrever_arquivo
      rw [List.getD_eq_getElem?_getD, List.getD_eq_getElem?_getD, List.getElem?_map,
        List.getElem?_eq_getElem hi]
      simp
  · have hc : calcular_probabilidade_doenca "ACGTACGT" ["ACGT", "CGTA"] 4 = 100 := by
      decide
    have hline : processar_linha "ACGTACGT" 4 "D1 _ ACGT CGTA" =
        some ⟨"D1", ["ACGT", "CGTA"], 100⟩ := by
      have hsplit : pySplit "D1 _ ACGT CGTA" = ["D1", "_", "ACGT", "CGTA"] := by decide
      unfold processar_linha
      rw [hsplit]
      show some (⟨"D1", ["ACGT", "CGTA"],
          calcular_probabilidade_doenca "ACGTACGT" ["ACGT", "CGTA"] 4⟩ : Doenca) =
        some ⟨"D1", ["ACGT", "CGTA"], 100⟩
      rw [hc]
    have hproc : processar_grupo_doencas "ACGTACGT" 4 ["D1 _ ACGT CGTA"] =
        some [⟨"D1", ["ACGT", "CGTA"], 100⟩] := by
      have hstep : processar_grupo_doencas "ACGTACGT" 4 ["D1 _ ACGT CGTA"] =
          (processar_linha "ACGTACGT" 4 "D1 _ ACGT CGTA").bind (fun d =>
            (processar_grupo_doencas "ACGTACGT" 4 []).bind (fun ds => some (d :: ds))) := rfl
      rw [hstep, hline]
      rfl
    have hchunks : processarChunks "ACGTACGT" 4 [["D1 _ ACGT CGTA"]] =
        some [[⟨"D1", ["ACGT", "CGTA"], 100⟩]] := by
      have hstep : processarChunks "ACGTACGT" 4 [["D1 _ ACGT CGTA"]] =
          (processar_grupo_doencas "ACGTACGT" 4 ["D1 _ ACGT CGTA"]).bind (fun r =>
            (processarChunks "ACGTACGT" 4 []).bind (fun rs => some (r :: rs))) := rfl
      rw [hstep, hproc]
      rfl
    have hdiv : dividir_lista ["D1 _ ACGT CGTA"] 1 = [["D1 _ ACGT CGTA"]] := by decide
    have hord : ordenar_doencas [(⟨"D1", ["ACGT", "CGTA"], 100⟩ : Doenca)] =
        [⟨"D1", ["ACGT", "CGTA"], 100⟩] := by
      unfold ordenar_doencas
      apply List.mergeSort_singleton
    unfold main_pipeline
    rw [hdiv, hchunks]
    show some (escrever_arquivo
      (ordenar_doencas ([[(⟨"D1", ["ACGT", "CGTA"], 100⟩ : Doenca)]]).flatten)) = _
    have hflat : ([[(⟨"D1", ["ACGT", "CGTA"], 100⟩ : Doenca)]]).flatten =
        [⟨"D1", ["ACGT", "CGTA"], 100⟩] := by decide
    rw [hflat, hord]
    decide

/-- Witness for C9 at a concrete one-element disease list. -/
theorem C9_witness :
    0 < ([(⟨"D", [], 5⟩ : Doenca)] : List Doenca).length ∧
      (escrever_arquivo [(⟨"D", [], 5⟩ : Doenca)]).getD 0 "" =
        (([(⟨"D", [], 5⟩ : Doenca)] : List Doenca).getD 0 ⟨"", [], 0⟩).codigo ++ "->" ++
          toString (([(⟨"D", [], 5⟩ : Doenca)] : List Doenca).getD 0
            ⟨"", [], 0⟩).probabilidade_doenca ++ "%\n" :=
  ⟨by decide, (C9_writer_format_and_end_to_end.1 [⟨"D", [], 5⟩]).2 0 (by decide)⟩
